import Mathlib

/-!
# PortKiller frontend engine: a shallow embedding

This file embeds the core logic of the PortKiller frontend (`App.tsx`):
the fuzzy ranker (`fuzzyScore`, `fuzzyMatch`, `filteredPorts`), the
kill-confirmation gate (`requestKill`, `executeBulkKill`), the poll-driven
change tracker (`fetchPorts` and its expiry timers), and the command
interpreter (`executeCommand`, `handleInputKeyDown`), together with
theorems settling the specification's claims about them.

JavaScript strings are modelled as `String`/`List Char`, JS `Map`s as
association lists with JS `Map` update semantics, and numeric scores as
rationals (`ℚ`).  Timers are modelled explicitly as `(fireTime, key)`
pairs so that scheduling and firing can be reasoned about.
-/

/-- A listening-port entry as delivered by the inventory collaborator
(`PortInfo` in `types.ts`). -/
structure PortInfo where
  port : Nat
  pid : Nat
  protocol : String
  process_name : String
  process_path : String
  is_protected : Bool
deriving DecidableEq, Repr

/-- The identity key used throughout the app: the template literal
`` `${p.port}-${p.pid}` ``. -/
def entryKey (p : PortInfo) : String :=
  toString p.port ++ "-" ++ toString p.pid

/-- `ChangeState` values actually stored in the `portChanges` map
(`'stable'` is never stored; it is the absence of a key). -/
inductive ChangeState where
  | new
  | removed
deriving DecidableEq, Repr

/-! ## Fuzzy ranker -/

/-- `String.prototype.toLowerCase` on the character list (ASCII). -/
def lowerL (s : List Char) : List Char := s.map Char.toLower

/-- `String.prototype.includes`: is `q` a contiguous substring of `t`? -/
def includesL : List Char → List Char → Bool
  | [], q => q.isEmpty
  | c :: ts, q => q.isPrefixOf (c :: ts) || includesL ts q

/-- The greedy subsequence walk of `fuzzyScore`: walk `t` once, consuming
characters of `q` in order; returns how many characters of `q` were
consumed (`qIdx` in the source; the accumulated score is `10 *` this). -/
def consumedL : List Char → List Char → Nat
  | _, [] => 0
  | [], _ :: _ => 0
  | c :: ts, d :: qs => if c = d then 1 + consumedL ts qs else consumedL ts (d :: qs)

/-- `fuzzyScore` from `App.tsx`: substring matches score
`100 + (q.length / t.length) * 50`; otherwise a greedy subsequence walk
scores `10` per consumed query character, and `0` unless the whole query
was consumed. -/
def fuzzyScore (query target : String) : ℚ :=
  if includesL (lowerL target.data) (lowerL query.data) then
    100 + ((query.length : ℚ) / (target.length : ℚ)) * 50
  else if consumedL (lowerL target.data) (lowerL query.data) =
      (lowerL query.data).length then
    10 * (consumedL (lowerL target.data) (lowerL query.data) : ℚ)
  else 0

/-- `fuzzyMatch` from `App.tsx`: the maximum of the port-number score
weighted by 2, the process-name score, and the PID score. -/
def fuzzyMatch (query : String) (p : PortInfo) : ℚ :=
  max (fuzzyScore query (toString p.port) * 2)
    (max (fuzzyScore query p.process_name) (fuzzyScore query (toString p.pid)))

/-- Stable descending insertion for the sort in `filteredPorts`
(`Array.prototype.sort` with comparator `b.score - a.score` is a stable
descending sort by score). -/
def insertByScore (x : PortInfo × ℚ) : List (PortInfo × ℚ) → List (PortInfo × ℚ)
  | [] => [x]
  | y :: ys => if y.2 ≤ x.2 then x :: y :: ys else y :: insertByScore x ys

/-- Stable sort, descending by score. -/
def sortByScore : List (PortInfo × ℚ) → List (PortInfo × ℚ)
  | [] => []
  | x :: xs => insertByScore x (sortByScore xs)

/-- `filteredPorts` from `App.tsx`, parameterised by the scoring function
so that independence from the scorer is expressible (`filteredPorts`
itself instantiates it with `fuzzyMatch`).  `none` models a `null`
`state`. -/
def filteredPortsGen (score : String → PortInfo → ℚ) (query : String)
    (ports : Option (List PortInfo)) : List PortInfo :=
  match ports with
  | none => []
  | some ps =>
    if query.isEmpty then ps
    else
      (sortByScore (((ps.map (fun p => (p, score query p))).filter
        (fun x => 0 < x.2)))).map (fun x => x.1)

/-- The ranked view: `filteredPorts` from `App.tsx`. -/
def filteredPorts (query : String) (ports : Option (List PortInfo)) : List PortInfo :=
  filteredPortsGen fuzzyMatch query ports

/-! ## Confirmation gate (single kill) -/

/-- The observable outcome of one `requestKill` call: the resulting
`pendingKill` state, the entries passed to the `kill_process`
collaborator, and any toast message shown. -/
structure KillStep where
  pendingKill : Option String
  kills : List PortInfo
  toasts : List String
deriving DecidableEq, Repr

/-- `requestKill` from `App.tsx`: protected entries are rejected with a
toast before the gate is touched; a request matching the pending key
executes the kill and clears the gate; any other request (re)arms the
gate with the entry's key. -/
def requestKill (pending : Option String) (p : PortInfo) : KillStep :=
  if p.is_protected then
    { pendingKill := pending, kills := []
      toasts := ["Cannot kill protected process: " ++ p.process_name] }
  else if pending = some (entryKey p) then
    { pendingKill := none, kills := [p], toasts := [] }
  else
    { pendingKill := some (entryKey p), kills := [], toasts := [] }

/-- Two consecutive `requestKill` calls starting from a given gate state,
accumulating the kills executed by either call. -/
def requestKillSeq (pending : Option String) (p1 p2 : PortInfo) : KillStep :=
  let s1 := requestKill pending p1
  let s2 := requestKill s1.pendingKill p2
  { pendingKill := s2.pendingKill, kills := s1.kills ++ s2.kills
    toasts := s1.toasts ++ s2.toasts }

/-! ## Bulk kill -/

/-- The killable subset computed by `requestBulkKill`/`executeBulkKill`:
entries of the current ranked view whose key is selected and that are
not protected. -/
def portsToKill (filtered : List PortInfo) (selected : List String) : List PortInfo :=
  filtered.filter (fun p => selected.contains (entryKey p) && !p.is_protected)

/-- The toast `` `Killed ${killed}/${total} processes` ``. -/
def bulkReport (killed total : Nat) : String :=
  "Killed " ++ toString killed ++ "/" ++ toString total ++ " processes"

/-- `executeBulkKill` from `App.tsx`: recomputes the killable subset at
execution time, invokes `kill_process` on each entry of it, and reports
successes out of that subset.  `killOk` abstracts which collaborator
calls report success. -/
def executeBulkKill (filtered : List PortInfo) (selected : List String)
    (killOk : PortInfo → Bool) : List PortInfo × String :=
  let ps := portsToKill filtered selected
  let killed := (ps.filter killOk).length
  (ps, bulkReport killed ps.length)

/-! ## Change tracker and selection across polls

JS `Map`s keyed by entry identity are modelled as association lists with
JS `Map` update semantics (overwriting keeps the key's position,
inserting appends). -/

/-- `Map.prototype.set`. -/
def mapSet (m : List (String × ChangeState)) (k : String) (v : ChangeState) :
    List (String × ChangeState) :=
  if m.any (fun e => e.1 = k) then
    m.map (fun e => if e.1 = k then (k, v) else e)
  else m ++ [(k, v)]

/-- `Map.prototype.delete`. -/
def mapDelete (m : List (String × ChangeState)) (k : String) :
    List (String × ChangeState) :=
  m.filter (fun e => e.1 ≠ k)

/-- `Map.prototype.get` (as an `Option`). -/
def mapGet (m : List (String × ChangeState)) (k : String) : Option ChangeState :=
  (m.find? (fun e => e.1 = k)).map (fun e => e.2)

/-- The state mutated by `fetchPorts` in `App.tsx`: `prevPortsRef` (kept
as its key set), the `portChanges` map, the `selectedPorts` selection,
the authoritative snapshot `state.ports`, and the pending change-expiry
timers (`changeTimersRef`), each carried as a `(fireTime, key)` pair. -/
structure TrackerState where
  prevKeys : List String
  portChanges : List (String × ChangeState)
  selectedPorts : List String
  statePorts : List PortInfo
  timers : List (Nat × String)
deriving DecidableEq, Repr

/-- The initial state: no previous snapshot, empty maps. -/
def initTracker : TrackerState :=
  { prevKeys := [], portChanges := [], selectedPorts := [], statePorts := []
    timers := [] }

/-- Keys of the new snapshot marked `'new'` by `fetchPorts`: present now
but absent from `prevPorts`. -/
def newKeysOf (prevKeys : List String) (data : List PortInfo) : List String :=
  (data.filter (fun p => !prevKeys.contains (entryKey p))).map entryKey

/-- Keys marked `'removed'` by `fetchPorts`: present in `prevPorts` but
absent from the new snapshot. -/
def removedKeysOf (prevKeys : List String) (data : List PortInfo) : List String :=
  prevKeys.filter (fun k => !(data.map entryKey).contains k)

/-- One successful poll: the state transformation performed by
`fetchPorts` in `App.tsx` on receiving snapshot `data` at time `now`.
Change annotations are produced only when `prevPorts.size > 0`
(`hadPorts`); each key newly marked `'new'` schedules one expiry timer
for `now + 3000`; the produced annotations are merged into the existing
map (`new Map([...prev, ...newChanges])`); `selectedPorts` is not
touched. -/
def fetchPorts (m : TrackerState) (data : List PortInfo) (now : Nat) : TrackerState :=
  let hadPorts := !m.prevKeys.isEmpty
  let newKeys := newKeysOf m.prevKeys data
  let removedKeys := removedKeysOf m.prevKeys data
  let newChanges :=
    newKeys.map (fun k => (k, ChangeState.new)) ++
      removedKeys.map (fun k => (k, ChangeState.removed))
  { prevKeys := data.map entryKey
    portChanges :=
      if hadPorts then
        newChanges.foldl (fun acc kv => mapSet acc kv.1 kv.2) m.portChanges
      else m.portChanges
    selectedPorts := m.selectedPorts
    statePorts := data
    timers :=
      if hadPorts then m.timers ++ newKeys.map (fun k => (now + 3000, k))
      else m.timers }

/-- The expiry callback scheduled by `fetchPorts` for key `k`: it removes
`k` from `portChanges` unconditionally (`next.delete(key)`) and
unregisters its own timer handle. -/
def fireChangeTimer (m : TrackerState) (k : String) (fireTime : Nat) : TrackerState :=
  { m with portChanges := mapDelete m.portChanges k
           timers := m.timers.erase (fireTime, k) }

/-! ## Command interpreter -/

/-- `String.prototype.trim` (on the character list). -/
def trimL (s : List Char) : List Char :=
  ((s.dropWhile Char.isWhitespace).reverse.dropWhile Char.isWhitespace).reverse

/-- Value of a digit string, most significant first. -/
def digitsVal (ds : List Char) : Nat :=
  ds.foldl (fun a c => a * 10 + (c.toNat - '0'.toNat)) 0

/-- JS `parseInt(s, 10)`: skip leading whitespace, read an optional sign
and then a maximal run of digits; `NaN` (here `none`) if that run is
empty. -/
def parseIntJS (s : List Char) : Option Int :=
  match s.dropWhile Char.isWhitespace with
  | [] => none
  | c :: rest =>
    if c = '-' then
      if (rest.takeWhile Char.isDigit).isEmpty then none
      else some (-(digitsVal (rest.takeWhile Char.isDigit) : Int))
    else if c = '+' then
      if (rest.takeWhile Char.isDigit).isEmpty then none
      else some (digitsVal (rest.takeWhile Char.isDigit) : Int)
    else
      if ((c :: rest).takeWhile Char.isDigit).isEmpty then none
      else some (digitsVal ((c :: rest).takeWhile Char.isDigit) : Int)

/-- The action taken by `executeCommand` in `App.tsx`.  `noMatch` is the
`return false` path (callers fall back to a literal port lookup);
`killRequest` feeds the found entry to `requestKill` (the confirmation
gate, not an immediate kill); `portNotInUse` is the
`` `Port ${n} is not in use` `` error toast. -/
inductive CmdAction where
  | adminCmd
  | refreshCmd
  | clearCmd
  | settingsCmd
  | helpCmd
  | killRequest (p : PortInfo)
  | portNotInUse (n : Int)
  | exportCopy (csv : Bool)
  | noMatch
deriving DecidableEq, Repr

/-- The `kill <port>` lookup of `executeCommand`: `requestKill` the found
entry, else the `not in use` diagnostic. -/
def killOutcome (ps : List PortInfo) (n : Int) : CmdAction :=
  match ps.find? (fun p => (p.port : Int) = n) with
  | some p => .killRequest p
  | none => .portNotInUse n

/-- `executeCommand` from `App.tsx`: trims and lower-cases the input,
then matches the sequential keyword / `kill ` / `export` checks exactly
as in the source (the failed-`kill`-parse path falls through to the
`export` check before returning `false`). -/
def executeCommand (cmd : String) (ports : Option (List PortInfo)) : CmdAction :=
  let trimmed := lowerL (trimL cmd.data)
  if trimmed = "admin".data ∨ trimmed = "sudo".data then .adminCmd
  else if trimmed = "refresh".data ∨ trimmed = "r".data then .refreshCmd
  else if trimmed = "clear".data ∨ trimmed = "c".data then .clearCmd
  else if trimmed = "settings".data ∨ trimmed = "config".data then .settingsCmd
  else if trimmed = "help".data ∨ trimmed = "?".data then .helpCmd
  else if "kill ".data.isPrefixOf trimmed then
    match ports, parseIntJS (trimmed.drop 5) with
    | some ps, some n => killOutcome ps n
    | _, _ =>
      if "export".data.isPrefixOf trimmed then .exportCopy (includesL trimmed "csv".data)
      else .noMatch
  else if "export".data.isPrefixOf trimmed then .exportCopy (includesL trimmed "csv".data)
  else .noMatch

/-- The toast produced by a command action, where one is produced
directly by `executeCommand` itself. -/
def cmdToast : CmdAction → Option String
  | .portNotInUse n => some ("Port " ++ toString n ++ " is not in use")
  | _ => none

/-- Result of pressing Enter in the search input
(`handleInputKeyDown` in `App.tsx`). -/
inductive InputAction where
  | cmd (c : CmdAction)
  | lookupKill (p : PortInfo)
  | lookupNotInUse (n : Int)
  | nothing
deriving DecidableEq, Repr

/-- The literal port-number fallback in `handleInputKeyDown`:
`parseInt(searchQuery, 10)` and a lookup against the current snapshot. -/
def literalLookup (query : String) (ports : Option (List PortInfo)) : InputAction :=
  match ports, parseIntJS query.data with
  | some ps, some n =>
    (match ps.find? (fun p => (p.port : Int) = n) with
     | some p => .lookupKill p
     | none => .lookupNotInUse n)
  | _, _ => .nothing

/-- `handleInputKeyDown` on Enter: try `executeCommand` first; if it
reports no match, fall back to the literal port-number lookup. -/
def handleInputEnter (query : String) (ports : Option (List PortInfo)) : InputAction :=
  match executeCommand query ports with
  | .noMatch => literalLookup query ports
  | c => .cmd c

/-- Modelled from the spec: the fixed command grammar as the claim words
it — the exact keywords `admin`/`sudo`, `refresh`/`r`, `clear`/`c`,
`settings`/`config`, `help`/`?`, `kill <int>` (an optionally signed
integer literal), and `export[ json|csv]`. -/
def specCommandGrammar (s : String) : Bool :=
  let t := lowerL (trimL s.data)
  (["admin", "sudo", "refresh", "r", "clear", "c", "settings", "config",
    "help", "?", "export", "export json", "export csv"].map String.data).contains t
  || ("kill ".data.isPrefixOf t &&
      (let rest := t.drop 5
       let body := if rest.headD ' ' = '-' then rest.tail else rest
       !body.isEmpty && body.all Char.isDigit))

/-- The matched set of `executeCommand` as the code implements it:
exact keywords; `kill `-prefixed input whose remainder `parseInt`s while
a snapshot is present; and any input beginning with `export`. -/
def codeCommandMatch (s : String) (ports : Option (List PortInfo)) : Bool :=
  let t := lowerL (trimL s.data)
  decide (t = "admin".data ∨ t = "sudo".data) ||
  decide (t = "refresh".data ∨ t = "r".data) ||
  decide (t = "clear".data ∨ t = "c".data) ||
  decide (t = "settings".data ∨ t = "config".data) ||
  decide (t = "help".data ∨ t = "?".data) ||
  ("kill ".data.isPrefixOf t && ports.isSome && (parseIntJS (t.drop 5)).isSome) ||
  "export".data.isPrefixOf t

/-! ## Concrete entries used by scenarios, counterexamples and witnesses -/

/-- A non-protected entry on port 3000 (pid 10, key `"3000-10"`). -/
def entA : PortInfo :=
  { port := 3000, pid := 10, protocol := "TCP", process_name := "node"
    process_path := "", is_protected := false }

/-- A protected entry on port 4000 (pid 20, key `"4000-20"`). -/
def entB : PortInfo :=
  { port := 4000, pid := 20, protocol := "TCP", process_name := "system"
    process_path := "", is_protected := true }

/-- A non-protected entry on port 5000 (pid 7, key `"5000-7"`). -/
def entX : PortInfo :=
  { port := 5000, pid := 7, protocol := "TCP", process_name := "py"
    process_path := "", is_protected := false }

/-! ## Association-list map lemmas -/

theorem mapGet_map_update (m : List (String × ChangeState)) (k : String) (v : ChangeState)
    (h : m.any (fun e => e.1 = k) = true) :
    mapGet (m.map (fun e => if e.1 = k then (k, v) else e)) k = some v := by
  induction m with
  | nil => simp at h
  | cons e rest ih =>
    by_cases he : e.1 = k
    · simp [mapGet, he]
    · have hr : rest.any (fun e => e.1 = k) = true := by
        simpa [he] using h
      simpa [mapGet, he] using ih hr

theorem mapGet_map_update_ne (m : List (String × ChangeState)) (k k' : String)
    (v : ChangeState) (hne : k' ≠ k) :
    mapGet (m.map (fun e => if e.1 = k then (k, v) else e)) k' = mapGet m k' := by
  induction m with
  | nil => rfl
  | cons e rest ih =>
    by_cases he : e.1 = k
    · have h2 : ¬(e.1 = k') := by rw [he]; exact fun h => hne h.symm
      simp only [List.map_cons, if_pos he]
      unfold mapGet
      rw [List.find?_cons_of_neg _ (by simpa using fun h => hne h.symm),
        List.find?_cons_of_neg _ (by simpa using h2)]
      exact ih
    · simp only [List.map_cons, if_neg he]
      by_cases he' : e.1 = k'
      · unfold mapGet
        rw [List.find?_cons_of_pos _ (by simpa using he'),
          List.find?_cons_of_pos _ (by simpa using he')]
      · unfold mapGet
        rw [List.find?_cons_of_neg _ (by simpa using he'),
          List.find?_cons_of_neg _ (by simpa using he')]
        exact ih

theorem mapGet_mapSet (m : List (String × ChangeState)) (k k' : String) (v : ChangeState) :
    mapGet (mapSet m k v) k' = if k' = k then some v else mapGet m k' := by
  unfold mapSet
  by_cases hany : m.any (fun e => e.1 = k) = true
  · rw [if_pos hany]
    by_cases hk : k' = k
    · subst hk
      rw [if_pos rfl]
      exact mapGet_map_update m k' v hany
    · rw [if_neg hk]
      exact mapGet_map_update_ne m k k' v hk
  · rw [if_neg hany]
    have hnone : m.find? (fun e => e.1 = k) = none := by
      rw [List.find?_eq_none]
      intro x hx
      have := (List.any_eq_false.mp (Bool.eq_false_iff.mpr hany)) x hx
      simpa using this
    by_cases hk : k' = k
    · subst hk
      simp [mapGet, List.find?_append, hnone]
    · have h2 : ¬(k = k') := fun h => hk h.symm
      simp [mapGet, List.find?_append, hk, h2]

theorem mapGet_foldl_mapSet (kvs : List (String × ChangeState))
    (m : List (String × ChangeState)) (k : String) (v : ChangeState)
    (h1 : ∀ x, (k, x) ∈ kvs → x = v)
    (h2 : mapGet m k = some v ∨ k ∈ kvs.map Prod.fst) :
    mapGet (kvs.foldl (fun acc kv => mapSet acc kv.1 kv.2) m) k = some v := by
  induction kvs generalizing m with
  | nil => simpa using h2
  | cons kv rest ih =>
    simp only [List.foldl_cons]
    by_cases hk : kv.1 = k
    · have hv : kv.2 = v := by
        apply h1
        have : (k, kv.2) = kv := by
          rw [← hk]
        rw [this]
        exact List.mem_cons_self _ _
      refine ih _ (fun x hx => h1 x (List.mem_cons_of_mem _ hx)) (Or.inl ?_)
      rw [mapGet_mapSet, if_pos hk.symm, hv]
    · refine ih _ (fun x hx => h1 x (List.mem_cons_of_mem _ hx)) ?_
      rcases h2 with h | h
      · exact Or.inl (by rw [mapGet_mapSet, if_neg (fun hh => hk hh.symm)]; exact h)
      · simp only [List.map_cons, List.mem_cons] at h
        rcases h with h | h
        · exact absurd h.symm hk
        · exact Or.inr h

theorem mapGet_mapDelete_self (m : List (String × ChangeState)) (k : String) :
    mapGet (mapDelete m k) k = none := by
  have hnone : (mapDelete m k).find? (fun e => e.1 = k) = none := by
    rw [List.find?_eq_none]
    intro x hx
    have := (List.mem_filter.mp hx).2
    simpa using this
  simp [mapGet, hnone]

/-! ## Key-set and timer-count lemmas -/

theorem mem_newKeysOf {prev : List String} {data : List PortInfo} {k : String}
    (h : k ∈ newKeysOf prev data) :
    k ∈ data.map entryKey ∧ prev.contains k = false := by
  unfold newKeysOf at h
  obtain ⟨p, hp, rfl⟩ := List.mem_map.mp h
  obtain ⟨hpd, hpc⟩ := List.mem_filter.mp hp
  exact ⟨List.mem_map.mpr ⟨p, hpd, rfl⟩, by simpa using hpc⟩

theorem mem_removedKeysOf {prev : List String} {data : List PortInfo} {k : String}
    (h : k ∈ removedKeysOf prev data) :
    k ∈ prev ∧ (data.map entryKey).contains k = false := by
  unfold removedKeysOf at h
  obtain ⟨hpk, hc⟩ := List.mem_filter.mp h
  exact ⟨hpk, by simpa using hc⟩

/-- Number of timers registered for key `k`. -/
def countTimers (ts : List (Nat × String)) (k : String) : Nat :=
  (ts.filter (fun t => t.2 = k)).length

/-- Number of occurrences of `k` in a key list. -/
def countKey (l : List String) (k : String) : Nat :=
  (l.filter (fun x => x = k)).length

theorem countTimers_append (a b : List (Nat × String)) (k : String) :
    countTimers (a ++ b) k = countTimers a k + countTimers b k := by
  simp [countTimers, List.filter_append]

theorem countTimers_map_const (ks : List String) (t : Nat) (k : String) :
    countTimers (ks.map (fun k' => (t, k'))) k = countKey ks k := by
  induction ks with
  | nil => rfl
  | cons a rest ih =>
    by_cases h : a = k
    · simp [countTimers, countKey, List.filter_cons, h] at ih ⊢
      exact ih
    · simp [countTimers, countKey, List.filter_cons, h] at ih ⊢
      exact ih

theorem countKey_eq_zero_of_not_mem {l : List String} {k : String} (h : k ∉ l) :
    countKey l k = 0 := by
  unfold countKey
  rw [List.length_eq_zero]
  rw [List.filter_eq_nil_iff]
  intro a ha
  simp only [decide_eq_true_eq]
  intro hak
  exact h (hak ▸ ha)

theorem countKey_newKeysOf_of_mem {prev : List String} (data : List PortInfo) {k : String}
    (h : prev.contains k = true) :
    countKey (newKeysOf prev data) k = 0 := by
  apply countKey_eq_zero_of_not_mem
  intro hk
  have := (mem_newKeysOf hk).2
  rw [this] at h
  exact Bool.false_ne_true h

theorem countKey_newKeysOf {prev : List String} (data : List PortInfo) {k : String}
    (h : prev.contains k = false) :
    countKey (newKeysOf prev data) k = countKey (data.map entryKey) k := by
  have hk : k ∉ prev := by simpa using h
  unfold newKeysOf countKey
  induction data with
  | nil => rfl
  | cons p rest ih =>
    by_cases hm : entryKey p ∈ prev
    · have he : ¬(entryKey p = k) := fun hek => hk (hek ▸ hm)
      simp [List.filter_cons, hm, he] at ih ⊢
      omega
    · by_cases he : entryKey p = k
      · simp [List.filter_cons, hm, he, hk] at ih ⊢
        omega
      · simp [List.filter_cons, hm, he] at ih ⊢
        omega

/-! ## Claim C1: protected entries never enter the kill path -/

/-- C1: for every entry whose `is_protected` flag is true, a kill request
on that entry is rejected immediately with a diagnostic toast, the
Confirmation Gate state (`pendingKill`) is left unchanged (in particular
an `Idle` gate stays `Idle`), `kill_process` is not invoked by the
single-kill path, and the entry is never part of the bulk-kill execution
set, for any ranked view and selection. -/
theorem C1_protected_never_killed (pending : Option String) (p : PortInfo)
    (hp : p.is_protected = true) :
    (requestKill pending p).pendingKill = pending ∧
    (requestKill pending p).kills = [] ∧
    (requestKill pending p).toasts =
      ["Cannot kill protected process: " ++ p.process_name] ∧
    ∀ filtered selected, p ∉ portsToKill filtered selected := by
  refine ⟨?_, ?_, ?_, ?_⟩
  · simp [requestKill, hp]
  · simp [requestKill, hp]
  · simp [requestKill, hp]
  · intro filtered selected hmem
    have := (List.mem_filter.mp hmem).2
    simp [hp] at this

/-- Witness for C1 at the concrete protected entry `entB` with an idle
gate and a selection containing `entB` itself. -/
theorem C1_protected_never_killed_witness :
    (requestKill none entB).pendingKill = none ∧
    (requestKill none entB).kills = [] ∧
    entB ∉ portsToKill [entA, entB] [entryKey entA, entryKey entB] := by
  have h := C1_protected_never_killed none entB (by decide)
  exact ⟨h.1, h.2.1, h.2.2.2 _ _⟩

/-! ## Claim C2: confirmation idempotence -/

/-- C2: from an idle gate, `requestKill A` twice for the same
non-protected entry executes exactly one kill of `A` and returns the
gate to idle; `requestKill A` then `requestKill B` for a different
(non-protected) identity executes no kill and leaves `B` pending. -/
theorem C2_confirmation_idempotence (A B : PortInfo)
    (hA : A.is_protected = false) (hB : B.is_protected = false)
    (hAB : entryKey A ≠ entryKey B) :
    (requestKillSeq none A A).kills = [A] ∧
    (requestKillSeq none A A).pendingKill = none ∧
    (requestKillSeq none A B).kills = [] ∧
    (requestKillSeq none A B).pendingKill = some (entryKey B) := by
  refine ⟨?_, ?_, ?_, ?_⟩ <;>
    simp [requestKillSeq, requestKill, hA, hB, hAB]

/-- Witness for C2 at the concrete entries `entA` and `entX`. -/
theorem C2_confirmation_idempotence_witness :
    (requestKillSeq none entA entA).kills = [entA] ∧
    (requestKillSeq none entA entA).pendingKill = none ∧
    (requestKillSeq none entA entX).kills = [] ∧
    (requestKillSeq none entA entX).pendingKill = some (entryKey entX) := by
  have h := C2_confirmation_idempotence entA entX (by decide) (by decide) (by decide)
  exact ⟨h.1, h.2.1, h.2.2.1, h.2.2.2⟩

/-! ## Claim C3: bulk kill executes exactly the killable subset -/

/-- C3: the set handed to `kill_process` by a confirmed bulk kill is
exactly the entries of the current ranked view whose key is in the
selection and that are not protected, computed at execution time; the
report counts successes out of that subset only.  In the scenario with
selection `{A, B}` where `B` is protected and the kill of `A` succeeds,
the executed set is `[A]` and the report reads `"Killed 1/1 processes"`,
not `1/2`. -/
theorem C3_bulk_kill_killable_subset :
    (∀ (filtered : List PortInfo) (selected : List String) (killOk : PortInfo → Bool)
      (p : PortInfo),
      p ∈ (executeBulkKill filtered selected killOk).1 ↔
        p ∈ filtered ∧ selected.contains (entryKey p) = true ∧
          p.is_protected = false) ∧
    (∀ (filtered : List PortInfo) (selected : List String) (killOk : PortInfo → Bool),
      (executeBulkKill filtered selected killOk).2 =
        bulkReport ((executeBulkKill filtered selected killOk).1.filter killOk).length
          (executeBulkKill filtered selected killOk).1.length) ∧
    (executeBulkKill [entA, entB] [entryKey entA, entryKey entB] (fun _ => true)).1 =
      [entA] ∧
    (executeBulkKill [entA, entB] [entryKey entA, entryKey entB] (fun _ => true)).2 =
      "Killed 1/1 processes" := by
  refine ⟨?_, fun _ _ _ => rfl, by decide, by decide⟩
  intro filtered selected killOk p
  simp [executeBulkKill, portsToKill, List.mem_filter]

/-! ## Claim C9: empty query is the identity and skips the scorer -/

/-- C9: ranking any snapshot with the empty query returns the snapshot's
entries unchanged in original order, and the result does not depend on
the scoring function at all (so the scorer is never consulted);
`filteredPorts` itself is this for the real `fuzzyMatch` scorer. -/
theorem C9_empty_query_identity :
    (∀ (score : String → PortInfo → ℚ) (ps : List PortInfo),
      filteredPortsGen score "" (some ps) = ps) ∧
    (∀ ps : List PortInfo, filteredPorts "" (some ps) = ps) := by
  exact ⟨fun _ _ => rfl, fun _ => rfl⟩

/-! ## Claim C4: selection pruning on refresh -/

/-- A state with a stale selection `"9999-1"` and no previous snapshot. -/
def staleSelState : TrackerState :=
  { initTracker with selectedPorts := ["9999-1"] }

/-- Counterexample to C4 as stated: after a refresh delivering `[entA]`,
the stale identity `"9999-1"` — absent from the new snapshot and from
the newly ranked view — is still in the selection; it is not dropped. -/
theorem C4_selection_counterexample :
    "9999-1" ∈ (fetchPorts staleSelState [entA] 0).selectedPorts ∧
    "9999-1" ∉ (filteredPorts "" (some (fetchPorts staleSelState [entA] 0).statePorts)).map
      entryKey := by
  decide

/-- C4 amended: `fetchPorts` leaves the selection untouched on every
refresh — no re-validation against the new snapshot happens, so
identities absent from the new ranked view persist in the selection. -/
theorem C4_amended_selection_unchanged (m : TrackerState) (data : List PortInfo)
    (now : Nat) :
    (fetchPorts m data now).selectedPorts = m.selectedPorts := rfl

/-! ## Claim C5: pruning of `removed` change-state keys -/

/-- Poll 1: snapshot `[entA, entX]` (first successful poll). -/
def c5poll1 : TrackerState := fetchPorts initTracker [entA, entX] 0

/-- Poll 2: `entA` disappears. -/
def c5poll2 : TrackerState := fetchPorts c5poll1 [entX] 2000

/-- Poll 3: `entA` stays absent. -/
def c5poll3 : TrackerState := fetchPorts c5poll2 [entX] 4000

/-- Counterexample to C5 as stated: after poll 3 the key of `entA` is
still mapped to `removed` although the identity is in neither the latest
snapshot (poll 3) nor the immediately preceding one (poll 2) — the
`removed` mark is not dropped when the next poll confirms the absence. -/
theorem C5_removed_counterexample :
    mapGet c5poll3.portChanges (entryKey entA) = some ChangeState.removed ∧
    (c5poll3.statePorts.map entryKey).contains (entryKey entA) = false ∧
    (c5poll2.statePorts.map entryKey).contains (entryKey entA) = false := by
  decide

/-- C5 amended: a key marked `removed` is never pruned by later polls;
as long as the identity stays absent from the incoming snapshot, every
further `fetchPorts` leaves it mapped to `removed`. -/
theorem C5_amended_removed_persists (m : TrackerState) (data : List PortInfo)
    (now : Nat) (k : String)
    (hrem : mapGet m.portChanges k = some ChangeState.removed)
    (habs : (data.map entryKey).contains k = false) :
    mapGet (fetchPorts m data now).portChanges k = some ChangeState.removed := by
  unfold fetchPorts
  simp only
  by_cases hhad : m.prevKeys.isEmpty
  · simp [hhad, hrem]
  · simp only [hhad, Bool.not_false, if_pos]
    apply mapGet_foldl_mapSet
    · intro x hx
      rcases List.mem_append.mp hx with h | h
      · exfalso
        obtain ⟨k', hk', heq⟩ := List.mem_map.mp h
        have hkk : k' = k := (Prod.mk.injEq _ _ _ _).mp heq |>.1
        have := (mem_newKeysOf (hkk ▸ hk')).1
        have hc : (data.map entryKey).contains k = true := by
          simpa using this
        rw [hc] at habs
        exact Bool.noConfusion habs
      · obtain ⟨k', _, heq⟩ := List.mem_map.mp h
        exact ((Prod.mk.injEq _ _ _ _).mp heq).2.symm
    · exact Or.inl hrem

/-- Witness for the amended C5: starting from the concrete poll-2 state,
a further poll with `entA` still absent keeps its `removed` mark. -/
theorem C5_amended_removed_persists_witness :
    mapGet (fetchPorts c5poll2 [entX] 4000).portChanges (entryKey entA) =
      some ChangeState.removed := by
  exact C5_amended_removed_persists c5poll2 [entX] 4000 (entryKey entA)
    (by decide) (by decide)

/-! ## Claim C6: empty previous snapshot and the first poll -/

/-- An empty first poll: the previous snapshot now exists and is empty. -/
def c6emptyPoll : TrackerState := fetchPorts initTracker [] 0

/-- Counterexample to C6 as stated: with an existing empty previous
snapshot (S1 = `[]` after the first poll) and a non-empty new snapshot
S2 = `[entA]`, no entry is marked `new` — the change map stays empty,
contradicting "the Change Tracker marks every entry of S2 as new". -/
theorem C6_empty_prev_counterexample :
    c6emptyPoll.statePorts = [] ∧
    (fetchPorts c6emptyPoll [entA] 2000).portChanges = [] ∧
    mapGet (fetchPorts c6emptyPoll [entA] 2000).portChanges (entryKey entA) ≠
      some ChangeState.new := by
  decide

/-- C6 amended: change annotations are produced only when the previous
snapshot was non-empty.  Whenever `prevPorts` is empty — the very first
poll, but equally a previous snapshot that exists and is empty — no
annotations and no timers are produced (in particular the initial state
yields an empty change map); when the previous snapshot was non-empty,
every entry absent from it is marked `new`. -/
theorem C6_amended_change_marking :
    (∀ (m : TrackerState) (data : List PortInfo) (now : Nat), m.prevKeys = [] →
      (fetchPorts m data now).portChanges = m.portChanges ∧
      (fetchPorts m data now).timers = m.timers) ∧
    (∀ (data : List PortInfo) (now : Nat),
      (fetchPorts initTracker data now).portChanges = []) ∧
    (∀ (m : TrackerState) (data : List PortInfo) (now : Nat) (p : PortInfo),
      m.prevKeys ≠ [] → p ∈ data → m.prevKeys.contains (entryKey p) = false →
      mapGet (fetchPorts m data now).portChanges (entryKey p) =
        some ChangeState.new) := by
  refine ⟨?_, ?_, ?_⟩
  · intro m data now h
    constructor <;> simp [fetchPorts, h]
  · intro data now
    rfl
  · intro m data now p hne hmem hcont
    unfold fetchPorts
    simp only
    have hhad : m.prevKeys.isEmpty = false := by
      simpa [List.isEmpty_iff] using hne
    simp only [hhad, Bool.not_false, if_pos]
    apply mapGet_foldl_mapSet
    · intro x hx
      rcases List.mem_append.mp hx with h | h
      · obtain ⟨k', _, heq⟩ := List.mem_map.mp h
        exact ((Prod.mk.injEq _ _ _ _).mp heq).2.symm
      · exfalso
        obtain ⟨k', hk', heq⟩ := List.mem_map.mp h
        have hkk : k' = entryKey p := ((Prod.mk.injEq _ _ _ _).mp heq).1
        have := (mem_removedKeysOf (hkk ▸ hk')).2
        have hc : (data.map entryKey).contains (entryKey p) = true := by
          simpa using List.mem_map.mpr ⟨p, hmem, rfl⟩
        rw [hc] at this
        exact Bool.noConfusion this
    · refine Or.inr ?_
      rw [List.map_append]
      apply List.mem_append.mpr
      refine Or.inl ?_
      have hnew : entryKey p ∈ newKeysOf m.prevKeys data := by
        unfold newKeysOf
        refine List.mem_map.mpr ⟨p, ?_, rfl⟩
        refine List.mem_filter.mpr ⟨hmem, ?_⟩
        simpa using hcont
      have hfst : ((newKeysOf m.prevKeys data).map
          (fun k => (k, ChangeState.new))).map Prod.fst =
          newKeysOf m.prevKeys data := by
        simp only [List.map_map]
        exact List.map_id' _
      rw [hfst]
      exact hnew

/-- Witness for the amended C6: concretely, from the state after a first
poll of `[entX]`, a poll delivering `[entX, entA]` marks `entA` as
`new`; and a state with empty `prevKeys` produces no annotations. -/
theorem C6_amended_change_marking_witness :
    mapGet (fetchPorts (fetchPorts initTracker [entX] 0) [entX, entA] 2000).portChanges
      (entryKey entA) = some ChangeState.new ∧
    (fetchPorts c6emptyPoll [entA] 2000).portChanges = c6emptyPoll.portChanges := by
  constructor
  · exact C6_amended_change_marking.2.2 (fetchPorts initTracker [entX] 0)
      [entX, entA] 2000 entA (by decide) (by decide) (by decide)
  · exact (C6_amended_change_marking.1 c6emptyPoll [entA] 2000 (by decide)).1

/-! ## Claim C7: change-expiry timer semantics -/

/-- Poll 1: first snapshot `[entX]`. -/
def c7poll1 : TrackerState := fetchPorts initTracker [entX] 0

/-- Poll 2: `entA` appears — it is marked `new` with a timer for 5000. -/
def c7poll2 : TrackerState := fetchPorts c7poll1 [entX, entA] 2000

/-- Poll 3: `entA` disappears again before its timer fires — the key is
overwritten to `removed`. -/
def c7poll3 : TrackerState := fetchPorts c7poll2 [entX] 4000

/-- Counterexample to C7 as stated: the expiry scheduled at poll 2 (for
time 5000) fires while the key's state is `removed`, not `new`, and
still deletes the key — the callback removes the key unconditionally
rather than "only if the key's state is still `new`". -/
theorem C7_fire_counterexample :
    c7poll2.timers = [(5000, entryKey entA)] ∧
    mapGet c7poll3.portChanges (entryKey entA) = some ChangeState.removed ∧
    mapGet (fireChangeTimer c7poll3 (entryKey entA) 5000).portChanges (entryKey entA) =
      none := by
  decide

/-- C7 amended: every timer added by a poll at time `now` fires at
exactly `now + 3000` and belongs to a key newly marked `new`; a key
already present in the previous snapshot gets no additional timer; a key
first observed by this poll (appearing once in the snapshot) gets
exactly one new timer; and the expiry callback removes its key from the
change map unconditionally — also when the state is no longer `new`. -/
theorem C7_amended_timer_semantics :
    (∀ (m : TrackerState) (data : List PortInfo) (now : Nat) (t : Nat × String),
      t ∈ (fetchPorts m data now).timers →
      t ∈ m.timers ∨ (t.1 = now + 3000 ∧ t.2 ∈ newKeysOf m.prevKeys data)) ∧
    (∀ (m : TrackerState) (data : List PortInfo) (now : Nat) (k : String),
      m.prevKeys.contains k = true →
      countTimers (fetchPorts m data now).timers k = countTimers m.timers k) ∧
    (∀ (m : TrackerState) (data : List PortInfo) (now : Nat) (k : String),
      m.prevKeys ≠ [] → m.prevKeys.contains k = false →
      countKey (data.map entryKey) k = 1 →
      countTimers (fetchPorts m data now).timers k = countTimers m.timers k + 1) ∧
    (∀ (m : TrackerState) (k : String) (ft : Nat),
      mapGet (fireChangeTimer m k ft).portChanges k = none) := by
  refine ⟨?_, ?_, ?_, ?_⟩
  · intro m data now t ht
    unfold fetchPorts at ht
    simp only at ht
    by_cases hhad : m.prevKeys.isEmpty
    · rw [hhad] at ht
      simp at ht
      exact Or.inl ht
    · have hhad' : m.prevKeys.isEmpty = false := Bool.eq_false_iff.mpr hhad
      rw [hhad'] at ht
      simp only [Bool.not_false, if_pos] at ht
      rcases List.mem_append.mp ht with h | h
      · exact Or.inl h
      · obtain ⟨k', hk', heq⟩ := List.mem_map.mp h
        exact Or.inr ⟨congrArg Prod.fst heq.symm, (congrArg Prod.snd heq).symm ▸ hk'⟩
  · intro m data now k hk
    have hne : m.prevKeys ≠ [] := by
      intro h
      rw [h] at hk
      exact Bool.noConfusion hk
    have hhad : m.prevKeys.isEmpty = false := by simpa [List.isEmpty_iff] using hne
    unfold fetchPorts
    simp only [hhad, Bool.not_false, if_pos]
    rw [countTimers_append, countTimers_map_const, countKey_newKeysOf_of_mem data hk,
      Nat.add_zero]
  · intro m data now k hne hk hcount
    have hhad : m.prevKeys.isEmpty = false := by simpa [List.isEmpty_iff] using hne
    unfold fetchPorts
    simp only [hhad, Bool.not_false, if_pos]
    rw [countTimers_append, countTimers_map_const, countKey_newKeysOf data hk, hcount]
  · intro m k ft
    simp [fireChangeTimer, mapGet_mapDelete_self]

/-- Witness for the amended C7 at the concrete trace: `entA`, first
observed at the poll at time 2000, gets exactly one timer; `entX`, which
stays present, gets none; firing deletes the key. -/
theorem C7_amended_timer_semantics_witness :
    countTimers (fetchPorts c7poll1 [entX, entA] 2000).timers (entryKey entA) =
      countTimers c7poll1.timers (entryKey entA) + 1 ∧
    countTimers (fetchPorts c7poll1 [entX] 2000).timers (entryKey entX) =
      countTimers c7poll1.timers (entryKey entX) ∧
    mapGet (fireChangeTimer c7poll3 (entryKey entA) 5000).portChanges (entryKey entA) =
      none := by
  refine ⟨?_, ?_, ?_⟩
  · exact C7_amended_timer_semantics.2.2.1 c7poll1 [entX, entA] 2000 (entryKey entA)
      (by decide) (by decide) (by decide)
  · exact C7_amended_timer_semantics.2.1 c7poll1 [entX] 2000 (entryKey entX) (by decide)
  · exact C7_amended_timer_semantics.2.2.2 c7poll3 (entryKey entA) 5000

/-! ## Fuzzy-scoring lemmas -/

theorem includesL_sublist {t q : List Char} (h : includesL t q = true) :
    q.Sublist t := by
  induction t with
  | nil =>
    have : q = [] := by simpa [includesL, List.isEmpty_iff] using h
    subst this
    exact List.nil_sublist _
  | cons c ts ih =>
    rcases (show q <+: (c :: ts) ∨ includesL ts q = true by
        simpa [includesL] using h) with h' | h'
    · exact h'.sublist
    · exact (ih h').cons c

theorem consumedL_le (t q : List Char) : consumedL t q ≤ q.length := by
  induction t generalizing q with
  | nil => cases q <;> simp [consumedL]
  | cons c ts ih =>
    cases q with
    | nil => simp [consumedL]
    | cons d qs =>
      by_cases h : c = d
      · simpa [consumedL, h, Nat.add_comm] using Nat.succ_le_succ (ih qs)
      · simpa [consumedL, h] using ih (d :: qs)

theorem sublist_consumedL {t q : List Char} (h : q.Sublist t) :
    consumedL t q = q.length := by
  induction t generalizing q with
  | nil =>
    have : q = [] := List.sublist_nil.mp h
    subst this
    rfl
  | cons c ts ih =>
    cases q with
    | nil => rfl
    | cons d qs =>
      by_cases hcd : c = d
      · have hq : qs.Sublist ts := by
          cases h with
          | cons _ h' => exact (List.sublist_cons_self d qs).trans h'
          | cons₂ _ h' => exact h'
        simp [consumedL, hcd, ih hq, Nat.add_comm]
      · have h' : (d :: qs).Sublist ts := by
          cases h with
          | cons _ h' => exact h'
          | cons₂ _ h' => exact absurd rfl hcd
        simp [consumedL, hcd, ih h']

theorem consumedL_full_sublist {t q : List Char} (h : consumedL t q = q.length) :
    q.Sublist t := by
  induction t generalizing q with
  | nil =>
    cases q with
    | nil => exact List.nil_sublist _
    | cons d qs => simp [consumedL] at h
  | cons c ts ih =>
    cases q with
    | nil => exact List.nil_sublist _
    | cons d qs =>
      by_cases hcd : c = d
      · subst hcd
        have h' : consumedL ts qs = qs.length := by
          have := h
          simp [consumedL] at this
          omega
        exact (ih h').cons₂ c
      · have h' : consumedL ts (d :: qs) = (d :: qs).length := by
          simpa [consumedL, hcd] using h
        exact (ih h').cons c

/-! ## Claim C8: the fuzzy scoring formula -/

/-- C8: for every query `q` and non-empty target `t` (the corner
`q = t = ""` is excluded because there JavaScript computes `0/0 = NaN`,
which has no rational counterpart): a contiguous-substring match of the
lower-cased strings scores exactly `100 + (len q / len t) * 50`, hence
at least 100; otherwise the score is `10 ×` the number of query
characters greedily consumed while walking `t` once, if all of `q` is
consumed, and `0` if not — in particular it is `0` whenever `q` is not
an in-order subsequence of `t`; and an entry's overall score is the
maximum of the port score weighted by 2, the name score and the PID
score, each computed independently. -/
theorem C8_fuzzy_scoring_spec (q t : String) (_ht : t ≠ "") :
    (includesL (lowerL t.data) (lowerL q.data) = true →
      fuzzyScore q t = 100 + ((q.length : ℚ) / (t.length : ℚ)) * 50 ∧
      100 ≤ fuzzyScore q t) ∧
    (includesL (lowerL t.data) (lowerL q.data) = false →
      (consumedL (lowerL t.data) (lowerL q.data) = q.length →
        fuzzyScore q t = 10 * q.length) ∧
      (consumedL (lowerL t.data) (lowerL q.data) ≠ q.length →
        fuzzyScore q t = 0)) ∧
    (¬ (lowerL q.data).Sublist (lowerL t.data) → fuzzyScore q t = 0) ∧
    (∀ p : PortInfo, fuzzyMatch q p =
      max (fuzzyScore q (toString p.port) * 2)
        (max (fuzzyScore q p.process_name) (fuzzyScore q (toString p.pid)))) := by
  have hlen : (lowerL q.data).length = q.length := by
    simp only [lowerL, List.length_map]
    rfl
  refine ⟨?_, ?_, ?_, fun p => rfl⟩
  · intro h
    have hval : fuzzyScore q t = 100 + ((q.length : ℚ) / (t.length : ℚ)) * 50 := by
      unfold fuzzyScore
      rw [if_pos h]
    refine ⟨hval, ?_⟩
    rw [hval]
    have h0 : (0 : ℚ) ≤ ((q.length : ℚ) / (t.length : ℚ)) * 50 := by positivity
    linarith
  · intro h
    constructor
    · intro hc
      have hc' : consumedL (lowerL t.data) (lowerL q.data) = (lowerL q.data).length := by
        rw [hlen]; exact hc
      unfold fuzzyScore
      rw [if_neg (by simp [h]), if_pos hc', hc]
    · intro hc
      have hc' : consumedL (lowerL t.data) (lowerL q.data) ≠ (lowerL q.data).length := by
        rw [hlen]; exact hc
      unfold fuzzyScore
      rw [if_neg (by simp [h]), if_neg hc']
  · intro h
    have h1 : includesL (lowerL t.data) (lowerL q.data) = false := by
      cases hin : includesL (lowerL t.data) (lowerL q.data) with
      | true => exact absurd (includesL_sublist hin) h
      | false => rfl
    have h2 : consumedL (lowerL t.data) (lowerL q.data) ≠ (lowerL q.data).length :=
      fun hc => h (consumedL_full_sublist hc)
    unfold fuzzyScore
    rw [if_neg (by simp [h1]), if_neg h2]

/-- Witness for C8: `"300"` is a substring of `"3000"` and scores the
formula value (≥ 100); `"xyz"` has no subsequence in `"3000"` and
scores 0; `fuzzyMatch` on `entA` is the stated three-way maximum. -/
theorem C8_fuzzy_scoring_spec_witness :
    fuzzyScore "300" "3000" =
      100 + ((("300".length : Nat) : ℚ) / (("3000".length : Nat) : ℚ)) * 50 ∧
    100 ≤ fuzzyScore "300" "3000" ∧
    fuzzyScore "xyz" "3000" = 0 ∧
    fuzzyMatch "300" entA =
      max (fuzzyScore "300" (toString entA.port) * 2)
        (max (fuzzyScore "300" entA.process_name)
          (fuzzyScore "300" (toString entA.pid))) := by
  have h1 := (C8_fuzzy_scoring_spec "300" "3000" (by decide)).1 (by decide)
  have h2 := (C8_fuzzy_scoring_spec "xyz" "3000" (by decide)).2.1 (by decide)
  have h3 := (C8_fuzzy_scoring_spec "300" "3000" (by decide)).2.2.2 entA
  exact ⟨h1.1, h1.2, h2.2 (by decide), h3⟩

/-! ## Character and parsing lemmas for the command interpreter -/

theorem digit_not_ws {c : Char} (h : c.isDigit = true) : c.isWhitespace = false := by
  cases hw : c.isWhitespace
  · rfl
  · exfalso
    have hw' : ((c = ' ' ∨ c = '\t') ∨ c = '\r') ∨ c = '\n' := by
      simpa [Char.isWhitespace] using hw
    rcases hw' with ((h' | h') | h') | h' <;> (rw [h'] at h; exact absurd h (by decide))

theorem digit_toLower {c : Char} (h : c.isDigit = true) : c.toLower = c := by
  have hval : 48 ≤ c.val ∧ c.val ≤ 57 := by simpa [Char.isDigit] using h
  have h57 : c.toNat ≤ 57 := hval.2
  unfold Char.toLower
  rw [if_neg]
  intro hcond
  have h65 : (65 : Nat) ≤ c.toNat := hcond.1
  omega

theorem digit_ne_minus {c : Char} (h : c.isDigit = true) : ¬(c = '-') := by
  intro he
  rw [he] at h
  exact absurd h (by decide)

theorem digit_ne_plus {c : Char} (h : c.isDigit = true) : ¬(c = '+') := by
  intro he
  rw [he] at h
  exact absurd h (by decide)

theorem takeWhile_of_all {p : Char → Bool} {l : List Char} (h : l.all p = true) :
    l.takeWhile p = l := by
  induction l with
  | nil => rfl
  | cons c rest ih =>
    rw [List.all_cons, Bool.and_eq_true] at h
    rw [List.takeWhile_cons, if_pos h.1, ih h.2]

theorem map_toLower_of_digits {ds : List Char} (h : ds.all Char.isDigit = true) :
    ds.map Char.toLower = ds := by
  induction ds with
  | nil => rfl
  | cons c rest ih =>
    rw [List.all_cons, Bool.and_eq_true] at h
    rw [List.map_cons, digit_toLower h.1, ih h.2]

/-- JS `parseInt` on a non-empty all-digit string returns its value. -/
theorem parseIntJS_digits (ds : List Char) (hne : ds ≠ [])
    (hdig : ds.all Char.isDigit = true) :
    parseIntJS ds = some (digitsVal ds : Int) := by
  cases ds with
  | nil => exact absurd rfl hne
  | cons d rest =>
    have hdig' := hdig
    rw [List.all_cons, Bool.and_eq_true] at hdig'
    obtain ⟨hd, hrest⟩ := hdig'
    unfold parseIntJS
    rw [List.dropWhile_cons, if_neg (by simp [digit_not_ws hd])]
    simp only
    rw [if_neg (digit_ne_minus hd), if_neg (digit_ne_plus hd)]
    rw [takeWhile_of_all hdig]
    rw [if_neg (by simp)]

theorem trimL_kill_digits (ds : List Char) (hne : ds ≠ [])
    (hdig : ds.all Char.isDigit = true) :
    trimL (['k', 'i', 'l', 'l', ' '] ++ ds) = ['k', 'i', 'l', 'l', ' '] ++ ds := by
  unfold trimL
  have h1 : List.dropWhile Char.isWhitespace (['k', 'i', 'l', 'l', ' '] ++ ds) =
      ['k', 'i', 'l', 'l', ' '] ++ ds := by
    rw [List.cons_append, List.dropWhile_cons, if_neg (by decide)]
  rw [h1]
  obtain ⟨e, es, hds⟩ : ∃ e es, ds.reverse = e :: es := by
    cases hrev : ds.reverse with
    | nil => exact absurd (by simpa using congrArg List.reverse hrev) hne
    | cons e es => exact ⟨e, es, rfl⟩
  have hemem : e ∈ ds := by
    rw [← List.mem_reverse, hds]
    exact List.mem_cons_self _ _
  have hed : e.isDigit = true := by
    simpa using List.all_eq_true.mp hdig e hemem
  have h2 : (['k', 'i', 'l', 'l', ' '] ++ ds).reverse =
      e :: (es ++ [' ', 'l', 'l', 'i', 'k']) := by
    rw [List.reverse_append, hds]
    rfl
  rw [h2, List.dropWhile_cons, if_neg (by simp [digit_not_ws hed]), ← h2,
    List.reverse_reverse]

theorem lowerL_kill_digits (ds : List Char) (hdig : ds.all Char.isDigit = true) :
    lowerL (['k', 'i', 'l', 'l', ' '] ++ ds) = ['k', 'i', 'l', 'l', ' '] ++ ds := by
  unfold lowerL
  rw [List.map_append, map_toLower_of_digits hdig]
  rfl

theorem killOutcome_ne_noMatch (ps : List PortInfo) (n : Int) :
    killOutcome ps n ≠ CmdAction.noMatch := by
  unfold killOutcome
  cases ps.find? (fun p => (p.port : Int) = n) <;> simp

theorem killOutcome_not_found (ps : List PortInfo) (n : Int)
    (h : ∀ p ∈ ps, ¬((p.port : Int) = n)) :
    killOutcome ps n = CmdAction.portNotInUse n := by
  unfold killOutcome
  have hfind : ps.find? (fun p => (p.port : Int) = n) = none := by
    rw [List.find?_eq_none]
    intro p hp
    simpa using h p hp
  rw [hfind]

/-! ## Claim C10: the command grammar -/

/-- Counterexample to C10 as stated: `"export stuff"` is outside the
fixed grammar `export[ json|csv]`, yet the interpreter matches it (as a
JSON export) instead of falling back to a port lookup — matching is
prefix-based, not exact. -/
theorem C10_grammar_counterexample :
    executeCommand "export stuff" (some []) = CmdAction.exportCopy false ∧
    executeCommand "export stuff" (some []) ≠ CmdAction.noMatch ∧
    specCommandGrammar "export stuff" = false := by
  decide

/-- C10 amended: after trimming and lower-casing, the interpreter
matches exactly: the ten keywords compared verbatim; `kill `-prefixed
input whose remainder `parseInt`s to a number while a snapshot is
present; and any input beginning with `export` (csv iff the substring
`csv` occurs).  Everything else — including the ambiguous partial input
`"ki"` — does not match, and unmatched input falls back to the literal
port-number lookup.  A `kill N` command for a port absent from the
snapshot yields the `Port N is not in use` diagnostic and reaches no
kill request. -/
theorem C10_amended_command_grammar :
    (∀ (s : String) (ports : Option (List PortInfo)),
      executeCommand s ports ≠ CmdAction.noMatch ↔ codeCommandMatch s ports = true) ∧
    (∀ ports, executeCommand "ki" ports = CmdAction.noMatch) ∧
    (∀ (s : String) (ports : Option (List PortInfo)),
      executeCommand s ports = CmdAction.noMatch →
      handleInputEnter s ports = literalLookup s ports) ∧
    (∀ (ports : List PortInfo) (ds : List Char) (n : Nat),
      ds ≠ [] → ds.all Char.isDigit = true → digitsVal ds = n →
      (∀ p ∈ ports, p.port ≠ n) →
      executeCommand (String.mk ('k' :: 'i' :: 'l' :: 'l' :: ' ' :: ds)) (some ports) =
        CmdAction.portNotInUse n ∧
      cmdToast (CmdAction.portNotInUse n) =
        some ("Port " ++ toString (n : Int) ++ " is not in use") ∧
      ∀ p, executeCommand (String.mk ('k' :: 'i' :: 'l' :: 'l' :: ' ' :: ds))
        (some ports) ≠ CmdAction.killRequest p) := by
  refine ⟨?_, ?_, ?_, ?_⟩
  · intro s ports
    simp only [executeCommand, codeCommandMatch]
    generalize lowerL (trimL s.data) = t
    by_cases h1 : t = "admin".data ∨ t = "sudo".data
    · simp [h1]
    · by_cases h2 : t = "refresh".data ∨ t = "r".data
      · simp [h1, h2]
      · by_cases h3 : t = "clear".data ∨ t = "c".data
        · simp [h1, h2, h3]
        · by_cases h4 : t = "settings".data ∨ t = "config".data
          · simp [h1, h2, h3, h4]
          · by_cases h5 : t = "help".data ∨ t = "?".data
            · simp [h1, h2, h3, h4, h5]
            · by_cases hk : "kill ".data.isPrefixOf t = true
              · rcases ports with _ | ps
                · by_cases he : "export".data.isPrefixOf t = true
                  · simp [h1, h2, h3, h4, h5, hk, he]
                  · simp [h1, h2, h3, h4, h5, hk, he]
                · cases hp : parseIntJS (t.drop 5) with
                  | none =>
                    by_cases he : "export".data.isPrefixOf t = true
                    · simp [h1, h2, h3, h4, h5, hk, hp, he]
                    · simp [h1, h2, h3, h4, h5, hk, hp, he]
                  | some n =>
                    simp [h1, h2, h3, h4, h5, hk, hp, killOutcome_ne_noMatch]
              · by_cases he : "export".data.isPrefixOf t = true
                · simp [h1, h2, h3, h4, h5, hk, he]
                · simp [h1, h2, h3, h4, h5, hk, he]
  · intro ports
    rfl
  · intro s ports h
    unfold handleInputEnter
    rw [h]
  · intro ports ds n hne hdig hn hports
    subst hn
    have htrim : lowerL (trimL (String.mk ('k' :: 'i' :: 'l' :: 'l' :: ' ' :: ds)).data) =
        ['k', 'i', 'l', 'l', ' '] ++ ds := by
      show lowerL (trimL (['k', 'i', 'l', 'l', ' '] ++ ds)) = _
      rw [trimL_kill_digits ds hne hdig, lowerL_kill_digits ds hdig]
    have hmain : executeCommand (String.mk ('k' :: 'i' :: 'l' :: 'l' :: ' ' :: ds))
        (some ports) = CmdAction.portNotInUse (digitsVal ds) := by
      simp only [executeCommand]
      rw [htrim]
      have hc1 : ¬(['k', 'i', 'l', 'l', ' '] ++ ds = "admin".data ∨
          ['k', 'i', 'l', 'l', ' '] ++ ds = "sudo".data) := by
        rintro (h | h) <;> simp at h
      have hc2 : ¬(['k', 'i', 'l', 'l', ' '] ++ ds = "refresh".data ∨
          ['k', 'i', 'l', 'l', ' '] ++ ds = "r".data) := by
        rintro (h | h) <;> simp at h
      have hc3 : ¬(['k', 'i', 'l', 'l', ' '] ++ ds = "clear".data ∨
          ['k', 'i', 'l', 'l', ' '] ++ ds = "c".data) := by
        rintro (h | h) <;> simp at h
      have hc4 : ¬(['k', 'i', 'l', 'l', ' '] ++ ds = "settings".data ∨
          ['k', 'i', 'l', 'l', ' '] ++ ds = "config".data) := by
        rintro (h | h) <;> simp at h
      have hc5 : ¬(['k', 'i', 'l', 'l', ' '] ++ ds = "help".data ∨
          ['k', 'i', 'l', 'l', ' '] ++ ds = "?".data) := by
        rintro (h | h) <;> simp at h
      have hkill : "kill ".data.isPrefixOf (['k', 'i', 'l', 'l', ' '] ++ ds) = true :=
        List.isPrefixOf_iff_prefix.mpr ⟨ds, rfl⟩
      rw [if_neg hc1, if_neg hc2, if_neg hc3, if_neg hc4, if_neg hc5, if_pos hkill]
      have hdrop : (['k', 'i', 'l', 'l', ' '] ++ ds).drop 5 = ds := rfl
      rw [hdrop, parseIntJS_digits ds hne hdig]
      show killOutcome ports (digitsVal ds : Int) = _
      exact killOutcome_not_found ports _
        (fun p hp hcast => hports p hp (Nat.cast_injective hcast))
    refine ⟨hmain, rfl, fun p => ?_⟩
    rw [hmain]
    simp

/-- Witness for the amended C10: `kill 9999` against a snapshot holding
only port 3000 yields the diagnostic and no kill request; `"ki"` does
not match; the match-set characterization holds at `"export json"`. -/
theorem C10_amended_command_grammar_witness :
    executeCommand "kill 9999" (some [entA]) = CmdAction.portNotInUse 9999 ∧
    cmdToast (CmdAction.portNotInUse 9999) = some "Port 9999 is not in use" ∧
    executeCommand "ki" (some [entA]) = CmdAction.noMatch ∧
    (executeCommand "export json" (some [entA]) ≠ CmdAction.noMatch ↔
      codeCommandMatch "export json" (some [entA]) = true) := by
  have hd := C10_amended_command_grammar.2.2.2 [entA] ['9', '9', '9', '9'] 9999
    (by decide) (by decide) (by decide) (by decide)
  exact ⟨hd.1, hd.2.1, C10_amended_command_grammar.2.1 (some [entA]),
    C10_amended_command_grammar.1 "export json" (some [entA])⟩
